import Mathlib

/-!
Verification of the PTS (Platform Trust Service) core of `src/libpts/pts/pts.c`.

The C code is shallowly embedded: byte buffers (`chunk_t`) become `List Nat`
(one `Nat` per byte), nullable pointers become `Option`, and the mutable
`private_pts_t` object becomes an explicit state record that every operation
threads through.  Cryptographic primitives (hashers, the DH exchange, RSA
signature verification) are external collaborators of this file's code and are
passed in as abstract function parameters.
-/

namespace PtsSpec

/-- Maximum number of PCRs of a TPM 1.2 (`PCR_MAX_NUM` in pts.c). -/
def PCR_MAX_NUM : Nat := 24

/-- Number of bytes a TPM 1.2 PCR holds (`PCR_LEN` in pts.c). -/
def PCR_LEN : Nat := 20

/-- TPM structure tag for TPM_QUOTE_INFO2, `TPM_TAG_QUOTE_INFO2 = 0x0036`
from the TCG TPM 1.2 headers included via trousers/tss.h. -/
def TPM_TAG_QUOTE_INFO2 : Nat := 0x0036

/-- TPM locality-zero selection bitmask, `TPM_LOC_ZERO = (1 << 0) = 1`
from the TCG TPM 1.2 headers included via trousers/tss.h
(TPM_LOCALITY_SELECTION is a bitmask: locality i is encoded as `1 << i`). -/
def TPM_LOC_ZERO : Nat := 1

/-- Big-endian 16-bit write of `bio_writer_t.write_uint16`. -/
def writeUInt16 (n : Nat) : List Nat := [n / 256 % 256, n % 256]

/-- Big-endian 32-bit write of `bio_writer_t.write_uint32`. -/
def writeUInt32 (n : Nat) : List Nat :=
  [n / 16777216 % 256, n / 65536 % 256, n / 256 % 256, n % 256]

/-- The mutable state of a `private_pts_t` object, restricted to the fields the
verified operations touch.  A `chunk_t` whose pointer may be NULL is an
`Option (List Nat)`; the fixed 24-entry `u_char *pcrs[PCR_MAX_NUM]` array is a
24-element list of optional byte strings; the 3-byte `u_int8_t pcr_select[3]`
bitmap is a 3-element list of byte values. -/
structure PtsState where
  /-- `u_char *pcrs[PCR_MAX_NUM]`: table of extended PCRs (NULL = `none`). -/
  pcrs : List (Option (List Nat))
  /-- `size_t pcr_len`: length of PCR registers (0 = not yet fixed). -/
  pcr_len : Nat
  /-- `u_int32_t pcr_count`: number of extended PCR registers. -/
  pcr_count : Nat
  /-- `u_int32_t pcr_max`: highest extended PCR register. -/
  pcr_max : Nat
  /-- `u_int8_t pcr_select[PCR_MAX_NUM / 8]`: bitmap of extended PCRs. -/
  pcr_select : List Nat
  /-- `chunk_t secret`: secret assessment value (NULL ptr = `none`). -/
  secret : Option (List Nat)
  /-- `chunk_t tpm_version_info` (NULL ptr = `none`). -/
  tpm_version_info : Option (List Nat)
  /-- `chunk_t initiator_nonce` (empty = not available). -/
  initiator_nonce : List Nat
  /-- `chunk_t responder_nonce` (empty = not available). -/
  responder_nonce : List Nat
  deriving DecidableEq

/-- The state of a freshly created `pts_t` object: `INIT` zeroes every field of
`private_pts_t` that is not explicitly set (pts_create sets none of the
registry fields). -/
def emptyPts : PtsState where
  pcrs := List.replicate PCR_MAX_NUM none
  pcr_len := 0
  pcr_count := 0
  pcr_max := 0
  pcr_select := List.replicate (PCR_MAX_NUM / 8) 0
  secret := none
  tpm_version_info := none
  initiator_nonce := []
  responder_nonce := []

/-- Per `create_dh_nonce` (pts.c line 226) the IMC — the measuring endpoint —
generates the responder nonce (`nonce = this->is_imc ? &this->responder_nonce
: &this->initiator_nonce`), and per `set_peer_public_value` it stores the
peer's nonce in the initiator slot.  Hence the measurer-role nonce is the
responder nonce. -/
def measurer_nonce (s : PtsState) : List Nat := s.responder_nonce

/-- Per `create_dh_nonce` (pts.c line 226) the IMV — the verifying endpoint —
generates the initiator nonce.  Hence the verifier-role nonce is the
initiator nonce. -/
def verifier_nonce (s : PtsState) : List Nat := s.initiator_nonce

/-- `select_pcr` (pts.c lines 1036-1061): mark PCR `pcr` as selected.
Rejects `pcr >= PCR_MAX_NUM`; otherwise sets bit `pcr % 8` of selection byte
`pcr / 8` and, if the bit was not yet set, raises `pcr_max` and increments
`pcr_count`. -/
def select_pcr (s : PtsState) (pcr : Nat) : Bool × PtsState :=
  if pcr ≥ PCR_MAX_NUM then (false, s)
  else
    let i := pcr / 8
    let f := 1 <<< (pcr - 8 * i)
    if s.pcr_select.getD i 0 &&& f = 0 then
      (true, { s with
                pcr_select := s.pcr_select.set i (s.pcr_select.getD i 0 ||| f),
                pcr_max := max s.pcr_max pcr,
                pcr_count := s.pcr_count + 1 })
    else
      (true, s)

/-- `add_pcr` (pts.c lines 1063-1112): record an extended PCR value.
Rejects `pcr >= PCR_MAX_NUM`.  If `pcr_len` is already set (nonzero), rejects
a `pcr_after` of any other length; if not, fixes `pcr_len` to
`pcr_after.len`.  If the slot was empty, sets its selection bit, raises
`pcr_max` and increments `pcr_count` (if the slot already held a value the C
code only logs a warning when the stored value differs from `pcr_before`, with
no state effect, then frees the old value).  Finally stores
`chunk_clone(pcr_after)`; `chunk_clone` of a zero-length chunk is
`chunk_empty`, i.e. a NULL pointer, hence the empty case stores `none`. -/
def add_pcr (s : PtsState) (pcr : Nat) (pcr_before pcr_after : List Nat) :
    Bool × PtsState :=
  if pcr ≥ PCR_MAX_NUM then (false, s)
  else if s.pcr_len ≠ 0 ∧ pcr_after.length ≠ s.pcr_len then (false, s)
  else
    let s1 := if s.pcr_len ≠ 0 then s else { s with pcr_len := pcr_after.length }
    let s2 :=
      if (s1.pcrs.getD pcr none).isSome then s1
      else { s1 with
              pcr_select := s1.pcr_select.set (pcr / 8)
                              (s1.pcr_select.getD (pcr / 8) 0 ||| (1 <<< (pcr % 8))),
              pcr_max := max s1.pcr_max pcr,
              pcr_count := s1.pcr_count + 1 }
    (true, { s2 with
              pcrs := s2.pcrs.set pcr
                        (if pcr_after.isEmpty then none else some pcr_after) })

/-- The loop `for (i = 0; i <= pcr_max; i++) pcrs[i] = NULL` of `clear_pcrs`:
slot `i + j` of the table becomes `NULL` for every `i + j <= m`, where `i` is
the index of the first listed slot. -/
def clear_upto (m : Nat) : Nat → List (Option (List Nat)) → List (Option (List Nat))
  | _, [] => []
  | i, v :: rest => (if i ≤ m then none else v) :: clear_upto m (i + 1) rest

/-- `clear_pcrs` (pts.c lines 863-876): frees `pcrs[0..pcr_max]`, zeroes
`pcr_count` and `pcr_max` and memsets the selection bitmap to zero. -/
def clear_pcrs (s : PtsState) : PtsState :=
  { s with
    pcrs := clear_upto s.pcr_max 0 s.pcrs,
    pcr_count := 0,
    pcr_max := 0,
    pcr_select := List.replicate (PCR_MAX_NUM / 8) 0 }

/-- `calculate_secret` (pts.c lines 257-301).  `hash` abstracts the hasher for
the negotiated DH hash algorithm (`allocate_hash` over the concatenated
inputs, `'1'` = byte 49); `dh_shared` abstracts `dh->get_shared_secret`
(`none` = the exchange failed).  Returns the C result and new state, paired
with the timeline of the local `shared_secret` buffer: the list of its
contents at the successive program points at which it changes, ending with
its contents when the function returns (`chunk_clear` zeroes and frees it,
leaving `none`). -/
def calculate_secret (hash : List Nat → List Nat) (dh_shared : Option (List Nat))
    (s : PtsState) : (Bool × PtsState) × List (Option (List Nat)) :=
  if s.initiator_nonce.length = 0 ∨ s.responder_nonce.length = 0 then
    ((false, s), [none])
  else
    match dh_shared with
    | none => ((false, s), [none])
    | some shared =>
        let assessment :=
          hash ([49] ++ s.initiator_nonce ++ s.responder_nonce ++ shared)
        ((true, { s with secret := some (assessment.take 20) }),
         [some shared, none])

/-- The PCR Composite structure built inside `get_quote_info`
(pts.c lines 1158-1181): 2-byte big-endian `size_of_select`, the first
`size_of_select` selection-bitmap bytes, 4-byte big-endian
`pcr_count * pcr_len`, then for each slot index in ascending order the stored
value of every populated slot (`chunk_create(this->pcrs[i], this->pcr_len)`
reads `pcr_len` bytes of the stored buffer). -/
def pcr_composite (s : PtsState) : List Nat :=
  let size_of_select := max (PCR_MAX_NUM / 8) (1 + s.pcr_max / 8)
  writeUInt16 size_of_select
    ++ (List.range size_of_select).map (fun i => s.pcr_select.getD i 0)
    ++ writeUInt32 (s.pcr_count * s.pcr_len)
    ++ ((List.range (8 * size_of_select)).map (fun i =>
          match s.pcrs.getD i none with
          | some v => v.take s.pcr_len
          | none => [])).flatten

/-- `get_quote_info` (pts.c lines 1128-1269).  `sha1` abstracts the fixed
SHA-1 hasher used for the composite digest of the quote info; `comp_hash`
abstracts the optional hasher selected by `comp_hash_algo` (`none` when the
argument is 0).  Fails (returning `none` and the unchanged state) when no PCR
entry is available, when the assessment secret is unset, or when
`use_quote2 && use_ver_info` but no TPM version info is present.  On success
returns the composite output (hashed or raw), the TPM_QUOTE_INFO or
TPM_QUOTE_INFO2 byte string, and the state after `clear_pcrs`. -/
def get_quote_info (sha1 : List Nat → List Nat)
    (comp_hash : Option (List Nat → List Nat)) (s : PtsState)
    (use_quote2 use_ver_info : Bool) :
    Option (List Nat × List Nat) × PtsState :=
  if s.pcr_count = 0 then (none, s)
  else if s.secret.isNone then (none, s)
  else if use_quote2 ∧ use_ver_info ∧ s.tpm_version_info.isNone then (none, s)
  else
    let size_of_select := max (PCR_MAX_NUM / 8) (1 + s.pcr_max / 8)
    let pcr_comp := pcr_composite s
    let out_pcr_comp :=
      match comp_hash with
      | some h => h pcr_comp
      | none => pcr_comp
    let hash_pcr_comp := sha1 pcr_comp
    let secret := s.secret.getD []
    let quote_info :=
      if use_quote2 then
        writeUInt16 TPM_TAG_QUOTE_INFO2
          ++ [81, 85, 84, 50]
          ++ secret
          ++ writeUInt16 size_of_select
          ++ (List.range size_of_select).map (fun i => s.pcr_select.getD i 0)
          ++ [TPM_LOC_ZERO]
          ++ hash_pcr_comp
          ++ (if use_ver_info then s.tpm_version_info.getD [] else [])
      else
        [1, 1, 0, 0] ++ [81, 85, 79, 84] ++ hash_pcr_comp ++ secret
    (some (out_pcr_comp, quote_info), clear_pcrs s)

/-- `verify_quote_signature` (pts.c lines 1271-1293).  The held AIK credential
is `aik` (`none` = no credential); its `get_public_key` result is the inner
option, and an extracted key is abstracted by its PKCS#1 v1.5 RSA / SHA-1
verification oracle (`SIGN_RSA_EMSA_PKCS1_SHA1`).  The result `none` models
the undefined behaviour of the C code when `this->aik` is NULL: the call
`this->aik->get_public_key(this->aik)` dereferences a NULL pointer — there is
no check, so the function crashes rather than returning FALSE. -/
def verify_quote_signature
    (aik : Option (Option (List Nat → List Nat → Bool)))
    (data signature : List Nat) : Option Bool :=
  match aik with
  | none => none
  | some pub =>
      match pub with
      | none => some false
      | some verify => some (verify data signature)

/-- Selection-bitmap test: bit `i % 8` of selection byte `i / 8`, exactly the
flag `f = 1 << (pcr - 8*i)` the C code tests and sets. -/
def bitSet (s : PtsState) (i : Nat) : Bool :=
  (s.pcr_select.getD (i / 8) 0).testBit (i % 8)

/-- Number of set bits of the 24-bit selection bitmap. -/
def popcount (s : PtsState) : Nat :=
  ((Finset.range PCR_MAX_NUM).filter (fun i => bitSet s i)).card

/-- The value block of the Register Composite as the specification words it:
the stored value of each selected register, in ascending index order
(a selected register with no stored value contributes nothing). -/
def selected_values (s : PtsState) : List Nat :=
  ((List.range PCR_MAX_NUM).map (fun i =>
      if bitSet s i then (s.pcrs.getD i none).getD [] else [])).flatten

/-- The classifications `stat` failures relevant to `is_path_valid` fall into:
success, `ENOENT`, `ENOTDIR`, `EFAULT`, or any other errno value. -/
inductive StatOutcome where
  | success
  | err_enoent
  | err_enotdir
  | err_efault
  | err_other
  deriving DecidableEq

/-- Modelled from the spec: the numeric values of `pts_error_code_t` live in
pts_error.h, which is not part of the given source; the spec only requires
that path validation delivers the classifications "not found" and
"invalid path" through the error-code out-parameter, which is zeroed first.
`zero` stands for the zeroed (no-error) value; the other two constructors
stand for the nonzero codes `TCG_PTS_FILE_NOT_FOUND` and
`TCG_PTS_INVALID_PATH`. -/
inductive PtsErrorCode where
  | zero
  | file_not_found
  | invalid_path
  deriving DecidableEq

/-- `is_path_valid` (pts.c lines 537-566): zeroes the error-code out-parameter,
then returns TRUE if `stat` succeeds; on `ENOENT`/`ENOTDIR` sets the code to
`TCG_PTS_FILE_NOT_FOUND` and returns TRUE; on `EFAULT` sets it to
`TCG_PTS_INVALID_PATH` and returns TRUE; on any other errno returns FALSE
leaving the code zero.  The result pairs the C return value with the final
value of the out-parameter. -/
def is_path_valid (st : StatOutcome) : Bool × PtsErrorCode :=
  match st with
  | StatOutcome.success => (true, PtsErrorCode.zero)
  | StatOutcome.err_enoent => (true, PtsErrorCode.file_not_found)
  | StatOutcome.err_enotdir => (true, PtsErrorCode.file_not_found)
  | StatOutcome.err_efault => (true, PtsErrorCode.invalid_path)
  | StatOutcome.err_other => (false, PtsErrorCode.zero)

/-- One registry operation of the select/record API. -/
inductive RegOp where
  | select (pcr : Nat)
  | record (pcr : Nat) (pcr_before pcr_after : List Nat)
  deriving DecidableEq

/-- Apply one registry operation.  Alongside the state, a ghost set tracks the
indices explicitly selected by accepted `select_pcr` calls, making the
specification's history notion "was explicitly selected" stateable. -/
def applyOp : PtsState × Finset Nat → RegOp → PtsState × Finset Nat
  | (s, g), RegOp.select pcr =>
      ((select_pcr s pcr).2, if pcr < PCR_MAX_NUM then insert pcr g else g)
  | (s, g), RegOp.record pcr b a => ((add_pcr s pcr b a).2, g)

/-- Apply a sequence of registry operations. -/
def applyOps (init : PtsState × Finset Nat) (ops : List RegOp) :
    PtsState × Finset Nat :=
  ops.foldl applyOp init

/-- Trace restriction of the amended C7: every record carries a non-empty
value and never targets a slot that is currently selected but unpopulated
(the combination on which `add_pcr` double-counts, see the counterexample). -/
def goodOps : PtsState → List RegOp → Bool
  | _, [] => true
  | s, RegOp.select pcr :: rest => goodOps (select_pcr s pcr).2 rest
  | s, RegOp.record pcr b a :: rest =>
      (!a.isEmpty && !(bitSet s pcr && !(s.pcrs.getD pcr none).isSome)) &&
        goodOps (add_pcr s pcr b a).2 rest

/-- The registry invariant carried through the induction: well-formed field
lengths, ghost indices in range, a selection bit set iff the slot is
populated or explicitly selected, the count equal to the number of set bits,
and every populated slot holding a non-empty value of the register length. -/
def RegInv (s : PtsState) (g : Finset Nat) : Prop :=
  s.pcr_select.length = 3 ∧ s.pcrs.length = 24 ∧
  (∀ i ∈ g, i < PCR_MAX_NUM) ∧
  (∀ i, i < PCR_MAX_NUM →
    (bitSet s i = true ↔ ((s.pcrs.getD i none).isSome = true ∨ i ∈ g))) ∧
  s.pcr_count = popcount s ∧
  (∀ i v, s.pcrs.getD i none = some v → v.length = s.pcr_len ∧ v ≠ [])

end PtsSpec

namespace PtsSpec

/-! Concrete sample data used by witnesses and counterexamples. -/

/-- A sample 20-byte PCR value. -/
def cValue : List Nat := List.replicate 20 5

/-- A sample 20-byte assessment secret. -/
def cSecret : List Nat := List.replicate 20 7

/-- A sample TPM version-info blob. -/
def cVerInfo : List Nat := [1, 1, 0, 0, 4]

/-- A sample SHA-1 stand-in: a constant 20-byte digest. -/
def cSha1 : List Nat → List Nat := fun _ => List.replicate 20 9

/-- Registry with PCR 2 recorded, a secret and version info present. -/
def cRegistry : PtsState :=
  { (add_pcr emptyPts 2 [] cValue).2 with
      secret := some cSecret, tpm_version_info := some cVerInfo }

/-- Registry with PCR 2 recorded but no assessment secret. -/
def cNoSecret : PtsState := (add_pcr emptyPts 2 [] cValue).2

/-- State with concrete one-byte nonces present. -/
def cNonceState : PtsState :=
  { emptyPts with initiator_nonce := [2], responder_nonce := [3] }

/-- The identity function as a digest stand-in: it keeps the concatenated
digest input visible, so nonce order is observable. -/
def idHash : List Nat → List Nat := fun l => l

/-- The registry obtained from an empty one by recording values at the
indices 0, 1 and 23 — the specification's selection-example set. -/
def threeState (v0 v1 v23 : List Nat) : PtsState :=
  (add_pcr ((add_pcr ((add_pcr emptyPts 0 [] v0).2) 1 [] v1).2) 23 [] v23).2

/-! Helper lemmas. -/

theorem clear_upto_getD (m : Nat) :
    ∀ (l : List (Option (List Nat))) (i j : Nat),
      (clear_upto m i l).getD j none =
        if j < l.length ∧ i + j ≤ m then none else l.getD j none := by
  intro l
  induction l with
  | nil => intro i j; simp [clear_upto]
  | cons v rest ih =>
      intro i j
      cases j with
      | zero =>
          simp only [clear_upto, List.getD_cons_zero, List.length_cons]
          by_cases h : i ≤ m
          · simp [h, Nat.succ_pos]
          · simp [h]
      | succ j =>
          simp only [clear_upto, List.getD_cons_succ, List.length_cons, ih (i + 1) j]
          have harith : i + 1 + j = i + (j + 1) := by omega
          by_cases h1 : j < rest.length
          · by_cases h2 : i + 1 + j ≤ m
            · simp [h1, h2, harith ▸ h2]
            · have h2' : ¬ i + (j + 1) ≤ m := by omega
              simp [h2, h2']
          · have h1' : ¬ j + 1 < rest.length + 1 := by omega
            simp [h1, h1']

theorem getD_of_length_le {α : Type} (l : List α) (d : α) (j : Nat)
    (h : l.length ≤ j) : l.getD j d = d := by
  simp [List.getD_eq_getElem?_getD, List.getElem?_eq_none h]

theorem getD_set_self {α : Type} (l : List α) (i : Nat) (a d : α)
    (h : i < l.length) : (l.set i a).getD i d = a := by
  simp [List.getD_eq_getElem?_getD, List.getElem?_set_self h]

theorem getD_set_ne {α : Type} (l : List α) (i j : Nat) (a d : α)
    (h : i ≠ j) : (l.set i a).getD j d = l.getD j d := by
  simp [List.getD_eq_getElem?_getD, List.getElem?_set_ne h]

theorem getD_replicate {α : Type} (n : Nat) (a d : α) (j : Nat) :
    (List.replicate n a).getD j d = if j < n then a else d := by
  simp [List.getD_eq_getElem?_getD, List.getElem?_replicate]
  split <;> simp

theorem and_shift_eq_zero_iff (b k : Nat) :
    b &&& (1 <<< k) = 0 ↔ b.testBit k = false := by
  rw [Nat.one_shiftLeft]
  constructor
  · intro h
    have h2 := congrArg (fun x => x.testBit k) h
    simpa [Nat.testBit_and, Nat.testBit_two_pow] using h2
  · intro h
    apply Nat.eq_of_testBit_eq
    intro j
    by_cases hkj : k = j
    · subst hkj; simp [Nat.testBit_and, Nat.testBit_two_pow, h]
    · simp [Nat.testBit_and, Nat.testBit_two_pow, hkj]

theorem bitSet_setBit (s s' : PtsState) (pcr i : Nat)
    (hs' : s'.pcr_select = s.pcr_select.set (pcr / 8)
      (s.pcr_select.getD (pcr / 8) 0 ||| 1 <<< (pcr % 8)))
    (hsel : s.pcr_select.length = 3) (hp : pcr < 24) :
    bitSet s' i = (bitSet s i || decide (i = pcr)) := by
  unfold bitSet
  rw [hs']
  by_cases hb : i / 8 = pcr / 8
  · rw [hb, getD_set_self _ _ _ _ (by omega)]
    rw [Nat.one_shiftLeft, Nat.testBit_lor, Nat.testBit_two_pow]
    have hiff : (pcr % 8 = i % 8) ↔ (i = pcr) := by omega
    rw [show decide (pcr % 8 = i % 8) = decide (i = pcr) from
      decide_eq_decide.mpr hiff]
  · rw [getD_set_ne _ _ _ _ _ (fun hh => hb hh.symm)]
    have hne : ¬ (i = pcr) := by omega
    simp [hne]

theorem popcount_insert (s s' : PtsState) (pcr : Nat) (hp : pcr < 24)
    (hbit : ∀ i, i < 24 → bitSet s' i = (bitSet s i || decide (i = pcr)))
    (hold : bitSet s pcr = false) :
    popcount s' = popcount s + 1 := by
  unfold popcount
  have hset : (Finset.range PCR_MAX_NUM).filter (fun i => bitSet s' i) =
      insert pcr ((Finset.range PCR_MAX_NUM).filter (fun i => bitSet s i)) := by
    ext j
    simp only [Finset.mem_filter, Finset.mem_insert, Finset.mem_range]
    constructor
    · rintro ⟨hj, hb⟩
      rw [hbit j hj] at hb
      rcases Bool.or_eq_true_iff.mp hb with hb | hb
      · exact Or.inr ⟨hj, hb⟩
      · exact Or.inl (of_decide_eq_true hb)
    · rintro (h | ⟨hj, hb⟩)
      · subst h
        exact ⟨hp, by rw [hbit _ hp]; simp⟩
      · exact ⟨hj, by rw [hbit j hj]; simp [hb]⟩
  rw [hset, Finset.card_insert_of_not_mem]
  simp [Finset.mem_filter, hold]

theorem regInv_select (s : PtsState) (g : Finset Nat) (pcr : Nat)
    (h : RegInv s g) :
    RegInv (select_pcr s pcr).2
      (if pcr < PCR_MAX_NUM then insert pcr g else g) := by
  obtain ⟨hsel, hlen, hg, hiff, hcount, hstore⟩ := h
  by_cases hge : pcr ≥ PCR_MAX_NUM
  · rw [if_neg (by omega)]
    simp only [select_pcr, if_pos hge]
    exact ⟨hsel, hlen, hg, hiff, hcount, hstore⟩
  · have hlt : pcr < PCR_MAX_NUM := by omega
    have hlt24 : pcr < 24 := hlt
    have hmod : pcr - 8 * (pcr / 8) = pcr % 8 := by omega
    rw [if_pos hlt]
    by_cases hbit :
        s.pcr_select.getD (pcr / 8) 0 &&& (1 <<< (pcr - 8 * (pcr / 8))) = 0
    · -- bit not yet set: the bitmap, count and max are updated
      simp only [select_pcr, if_neg hge, if_pos hbit]
      have hold : bitSet s pcr = false := by
        rw [hmod] at hbit
        unfold bitSet
        exact (and_shift_eq_zero_iff _ _).mp hbit
      have hs' :
          ({ s with
              pcr_select := s.pcr_select.set (pcr / 8)
                (s.pcr_select.getD (pcr / 8) 0 ||| 1 <<< (pcr - 8 * (pcr / 8))),
              pcr_max := max s.pcr_max pcr,
              pcr_count := s.pcr_count + 1 } : PtsState).pcr_select =
            s.pcr_select.set (pcr / 8)
              (s.pcr_select.getD (pcr / 8) 0 ||| 1 <<< (pcr % 8)) := by
        rw [← hmod]
      have hbs := fun i => bitSet_setBit s _ pcr i hs' hsel hlt24
      refine ⟨by simpa using hsel, hlen, ?_, ?_, ?_, hstore⟩
      · intro i hi
        rcases Finset.mem_insert.mp hi with h1 | h1
        · subst h1; exact hlt
        · exact hg i h1
      · intro i hi
        rw [hbs i]
        by_cases hip : i = pcr
        · subst hip
          simp [Finset.mem_insert]
        · have hd : decide (i = pcr) = false := decide_eq_false hip
          rw [hd, Bool.or_false, hiff i hi]
          simp [Finset.mem_insert, hip]
      · show s.pcr_count + 1 = popcount _
        rw [popcount_insert s _ pcr hlt24 (fun i _ => hbs i) hold, hcount]
    · -- bit already set: the state is unchanged, only the ghost set grows
      simp only [select_pcr, if_neg hge, if_neg hbit]
      have hbset : bitSet s pcr = true := by
        rw [hmod] at hbit
        unfold bitSet
        rcases Bool.eq_false_or_eq_true
          ((s.pcr_select.getD (pcr / 8) 0).testBit (pcr % 8)) with h1 | h1
        · exact h1
        · exact absurd ((and_shift_eq_zero_iff _ _).mpr h1) hbit
      refine ⟨hsel, hlen, ?_, ?_, hcount, hstore⟩
      · intro i hi
        rcases Finset.mem_insert.mp hi with h1 | h1
        · subst h1; exact hlt
        · exact hg i h1
      · intro i hi
        by_cases hip : i = pcr
        · subst hip
          simp [hbset, Finset.mem_insert]
        · rw [hiff i hi]
          simp [Finset.mem_insert, hip]

theorem regInv_record (s : PtsState) (g : Finset Nat) (pcr : Nat)
    (b a : List Nat) (h : RegInv s g) (ha : a ≠ [])
    (hgb : bitSet s pcr = true → (s.pcrs.getD pcr none).isSome = true) :
    RegInv (add_pcr s pcr b a).2 g := by
  obtain ⟨hsel, hlen, hg, hiff, hcount, hstore⟩ := h
  have hae : a.isEmpty = false := by
    cases a
    · exact absurd rfl ha
    · rfl
  by_cases hge : pcr ≥ PCR_MAX_NUM
  · simp only [add_pcr, if_pos hge]
    exact ⟨hsel, hlen, hg, hiff, hcount, hstore⟩
  · have hlt : pcr < PCR_MAX_NUM := by omega
    have hlt24 : pcr < 24 := hlt
    by_cases hrej : s.pcr_len ≠ 0 ∧ a.length ≠ s.pcr_len
    · simp only [add_pcr, if_neg hge, if_pos hrej]
      exact ⟨hsel, hlen, hg, hiff, hcount, hstore⟩
    · simp only [add_pcr, if_neg hge, if_neg hrej, hae, Bool.false_eq_true,
        if_false]
      by_cases hplen : s.pcr_len ≠ 0
      · rw [if_pos hplen]
        have halen : a.length = s.pcr_len := by tauto
        by_cases hpop : (s.pcrs.getD pcr none).isSome = true
        · -- slot already populated: only the stored value changes
          rw [if_pos hpop]
          refine ⟨hsel, by simpa using hlen, hg, ?_, hcount, ?_⟩
          · intro i hi
            by_cases hip : i = pcr
            · subst hip
              rw [getD_set_self _ _ _ _ (by simp [hlen]; omega)]
              simp only [Option.isSome_some, true_or, iff_true]
              exact (hiff i hi).mpr (Or.inl hpop)
            · rw [getD_set_ne _ _ _ _ _ (fun hh => hip hh.symm)]
              exact hiff i hi
          · intro i v hv
            by_cases hip : i = pcr
            · subst hip
              rw [getD_set_self _ _ _ _ (by simp [hlen]; omega)] at hv
              cases hv
              exact ⟨halen, ha⟩
            · rw [getD_set_ne _ _ _ _ _ (fun hh => hip hh.symm)] at hv
              exact hstore i v hv
        · -- slot empty: the bit is set, count and max are raised
          rw [if_neg hpop]
          have hold : bitSet s pcr = false := by
            rcases Bool.eq_false_or_eq_true (bitSet s pcr) with h1 | h1
            · exact absurd (hgb h1) hpop
            · exact h1
          have hs' :
              ({ s with
                  pcr_select := s.pcr_select.set (pcr / 8)
                    (s.pcr_select.getD (pcr / 8) 0 ||| 1 <<< (pcr % 8)),
                  pcr_max := max s.pcr_max pcr,
                  pcr_count := s.pcr_count + 1,
                  pcrs := s.pcrs.set pcr (some a) } : PtsState).pcr_select =
                s.pcr_select.set (pcr / 8)
                  (s.pcr_select.getD (pcr / 8) 0 ||| 1 <<< (pcr % 8)) := rfl
          have hbs := fun i => bitSet_setBit s _ pcr i hs' hsel hlt24
          refine ⟨by simpa using hsel, by simpa using hlen, hg, ?_, ?_, ?_⟩
          · intro i hi
            rw [show bitSet _ i = (bitSet s i || decide (i = pcr)) from hbs i]
            by_cases hip : i = pcr
            · subst hip
              rw [getD_set_self _ _ _ _ (by simp [hlen]; omega)]
              simp
            · have hd : decide (i = pcr) = false := decide_eq_false hip
              rw [hd, Bool.or_false, getD_set_ne _ _ _ _ _
                (fun hh => hip hh.symm), hiff i hi]
          · show s.pcr_count + 1 = popcount _
            rw [popcount_insert s _ pcr hlt24 (fun i _ => hbs i) hold, hcount]
          · intro i v hv
            by_cases hip : i = pcr
            · subst hip
              rw [getD_set_self _ _ _ _ (by simp [hlen]; omega)] at hv
              cases hv
              exact ⟨halen, ha⟩
            · rw [getD_set_ne _ _ _ _ _ (fun hh => hip hh.symm)] at hv
              exact hstore i v hv
      · -- register length not yet fixed: it is set to the new value length
        rw [if_neg hplen]
        have hlen0 : s.pcr_len = 0 := by omega
        have hnopop : ∀ i, s.pcrs.getD i none = none := by
          intro i
          rcases hv : s.pcrs.getD i none with _ | v
          · rfl
          · obtain ⟨hvl, hvne⟩ := hstore i v hv
            rw [hlen0] at hvl
            exact absurd (List.eq_nil_of_length_eq_zero hvl) hvne
        have hpop' : ¬ ((({ s with pcr_len := a.length } : PtsState).pcrs.getD
            pcr none).isSome = true) := by
          show ¬ ((s.pcrs.getD pcr none).isSome = true)
          rw [hnopop pcr]
          simp
        rw [if_neg hpop']
        have hold : bitSet s pcr = false := by
          rcases Bool.eq_false_or_eq_true (bitSet s pcr) with h1 | h1
          · have h2 := hgb h1
            rw [hnopop pcr] at h2
            simp at h2
          · exact h1
        have hs' :
            ({ s with
                pcr_len := a.length,
                pcr_select := s.pcr_select.set (pcr / 8)
                  (s.pcr_select.getD (pcr / 8) 0 ||| 1 <<< (pcr % 8)),
                pcr_max := max s.pcr_max pcr,
                pcr_count := s.pcr_count + 1,
                pcrs := s.pcrs.set pcr (some a) } : PtsState).pcr_select =
              s.pcr_select.set (pcr / 8)
                (s.pcr_select.getD (pcr / 8) 0 ||| 1 <<< (pcr % 8)) := rfl
        have hbs := fun i => bitSet_setBit s _ pcr i hs' hsel hlt24
        refine ⟨by simpa using hsel, by simpa using hlen, hg, ?_, ?_, ?_⟩
        · intro i hi
          rw [show bitSet _ i = (bitSet s i || decide (i = pcr)) from hbs i]
          by_cases hip : i = pcr
          · subst hip
            rw [getD_set_self _ _ _ _ (by simp [hlen]; omega)]
            simp
          · have hd : decide (i = pcr) = false := decide_eq_false hip
            rw [hd, Bool.or_false, getD_set_ne _ _ _ _ _
              (fun hh => hip hh.symm), hiff i hi]
        · show s.pcr_count + 1 = popcount _
          rw [popcount_insert s _ pcr hlt24 (fun i _ => hbs i) hold, hcount]
        · intro i v hv
          by_cases hip : i = pcr
          · subst hip
            rw [getD_set_self _ _ _ _ (by simp [hlen]; omega)] at hv
            cases hv
            exact ⟨rfl, ha⟩
          · rw [getD_set_ne _ _ _ _ _ (fun hh => hip hh.symm), hnopop i] at hv
            cases hv

theorem regInv_empty : RegInv emptyPts ∅ := by
  have hb0 : ∀ i, bitSet emptyPts i = false := by
    intro i
    show ((List.replicate 3 (0 : Nat)).getD (i / 8) 0).testBit (i % 8) = false
    rw [getD_replicate]
    simp [Nat.zero_testBit]
  have hslots : ∀ i, emptyPts.pcrs.getD i none = none := by
    intro i
    show (List.replicate 24 (none : Option (List Nat))).getD i none = none
    rw [getD_replicate]
    simp
  refine ⟨rfl, rfl, ?_, ?_, ?_, ?_⟩
  · intro i hi
    simp at hi
  · intro i _
    rw [hb0 i, hslots i]
    simp
  · show (0 : Nat) = popcount emptyPts
    unfold popcount
    rw [Finset.filter_false_of_mem (fun i _ => by simp [hb0 i])]
    simp
  · intro i v hv
    rw [hslots i] at hv
    cases hv

theorem regInv_applyOps (ops : List RegOp) :
    ∀ (s : PtsState) (g : Finset Nat), RegInv s g → goodOps s ops = true →
      RegInv (applyOps (s, g) ops).1 (applyOps (s, g) ops).2 := by
  induction ops with
  | nil => intro s g h _; exact h
  | cons op rest ih =>
      intro s g h hgood
      cases op with
      | select pcr =>
          have hg2 : goodOps (select_pcr s pcr).2 rest = true := by
            simpa [goodOps] using hgood
          have hstep := ih (select_pcr s pcr).2 _ (regInv_select s g pcr h) hg2
          simpa [applyOps, applyOp] using hstep
      | record pcr b a =>
          have hsplit := hgood
          simp only [goodOps, Bool.and_eq_true] at hsplit
          obtain ⟨⟨ha, hnb⟩, hrest⟩ := hsplit
          have ha2 : a ≠ [] := by
            cases a
            · simp at ha
            · simp
          have hgb : bitSet s pcr = true →
              (s.pcrs.getD pcr none).isSome = true := by
            intro hb
            rcases Bool.eq_false_or_eq_true ((s.pcrs.getD pcr none).isSome)
              with h1 | h1
            · exact h1
            · exfalso
              rw [List.getD_eq_getElem?_getD] at h1
              simp [hb, h1] at hnb
          have hstep := ih (add_pcr s pcr b a).2 g
            (regInv_record s g pcr b a h ha2 hgb) hrest
          simpa [applyOps, applyOp] using hstep

theorem threeState_eq_succ (n : Nat) (v0 v1 v23 : List Nat)
    (h0 : v0.length = n + 1) (h1 : v1.length = n + 1)
    (h23 : v23.length = n + 1) :
    threeState v0 v1 v23 =
      { pcrs := (((List.replicate 24 none).set 0 (some v0)).set 1
          (some v1)).set 23 (some v23),
        pcr_len := n + 1, pcr_count := 3, pcr_max := 23,
        pcr_select := [3, 0, 128], secret := none, tpm_version_info := none,
        initiator_nonce := [], responder_nonce := [] } := by
  have hv0 : ¬ v0 = [] := by intro h; rw [h] at h0; simp at h0
  have hv1 : ¬ v1 = [] := by intro h; rw [h] at h1; simp at h1
  have hv23 : ¬ v23 = [] := by intro h; rw [h] at h23; simp at h23
  simp [threeState, add_pcr, emptyPts, PCR_MAX_NUM, h0, h1, h23, hv0, hv1,
    hv23]

theorem pcr_composite_general (s : PtsState) (hmax : s.pcr_max < PCR_MAX_NUM)
    (hslots : ∀ i v, s.pcrs.getD i none = some v →
      bitSet s i = true ∧ v.length = s.pcr_len) :
    pcr_composite s =
      writeUInt16 (max 3 (1 + s.pcr_max / 8))
        ++ (List.range (max 3 (1 + s.pcr_max / 8))).map
             (fun i => s.pcr_select.getD i 0)
        ++ writeUInt32 (s.pcr_count * s.pcr_len)
        ++ selected_values s := by
  have hmax24 : s.pcr_max < 24 := hmax
  have hw3 : max 3 (1 + s.pcr_max / 8) = 3 := Nat.max_eq_left (by omega)
  have hw : max (PCR_MAX_NUM / 8) (1 + s.pcr_max / 8) = 3 := hw3
  unfold pcr_composite selected_values
  rw [hw, hw3]
  have hmaps : List.map (fun i =>
        match s.pcrs.getD i none with
        | some v => List.take s.pcr_len v
        | none => []) (List.range (8 * 3)) =
      List.map (fun i =>
        if bitSet s i = true then (s.pcrs.getD i none).getD [] else [])
        (List.range PCR_MAX_NUM) := by
    have h83 : (8 * 3 : Nat) = PCR_MAX_NUM := rfl
    rw [h83]
    apply List.map_congr_left
    intro i _
    rcases h : s.pcrs.getD i none with _ | v
    · simp [h]
    · obtain ⟨hb, hv⟩ := hslots i v h
      simp [h, hb]
      omega
  simp only [hmaps]


end PtsSpec

namespace PtsSpec

/-- C1 (amended): the register registry is cleared only on the successful path
of quote-structure construction: on each early-failure precondition path
(no populated/selected register, missing assessment secret, missing hardware
version info) `get_quote_info` returns failure with the registry — indeed the
whole state — unchanged, while on success the registry is cleared: every slot
empty, populated count zero, highest-touched index zero, selection bitmap all
zeros (slot emptiness uses that slots above the highest-touched index were
already empty, as in every reachable registry state). -/
theorem get_quote_info_registry_effect
    (sha1 : List Nat → List Nat) (comp_hash : Option (List Nat → List Nat))
    (s : PtsState) (use_quote2 use_ver_info : Bool) :
    ((s.pcr_count = 0 ∨ s.secret = none ∨
        (use_quote2 = true ∧ use_ver_info = true ∧ s.tpm_version_info = none)) →
      get_quote_info sha1 comp_hash s use_quote2 use_ver_info = (none, s)) ∧
    (s.pcr_count ≠ 0 → s.secret ≠ none →
      ¬(use_quote2 = true ∧ use_ver_info = true ∧ s.tpm_version_info = none) →
      (∀ i < s.pcrs.length, s.pcr_max < i → s.pcrs.getD i none = none) →
      (get_quote_info sha1 comp_hash s use_quote2 use_ver_info).1.isSome = true ∧
      (∀ i, (get_quote_info sha1 comp_hash s use_quote2 use_ver_info).2.pcrs.getD
              i none = none) ∧
      (get_quote_info sha1 comp_hash s use_quote2 use_ver_info).2.pcr_count = 0 ∧
      (get_quote_info sha1 comp_hash s use_quote2 use_ver_info).2.pcr_max = 0 ∧
      (get_quote_info sha1 comp_hash s use_quote2 use_ver_info).2.pcr_select =
        [0, 0, 0]) := by
  constructor
  · rintro (hc | hs | ⟨hq, hv, ht⟩)
    · simp [get_quote_info, hc]
    · by_cases hc : s.pcr_count = 0
      · simp [get_quote_info, hc]
      · simp [get_quote_info, hc, hs]
    · by_cases hc : s.pcr_count = 0
      · simp [get_quote_info, hc]
      · by_cases hs : s.secret = none
        · simp [get_quote_info, hc, hs]
        · simp [get_quote_info, hc, hs, hq, hv, ht]
  · intro hc hs hv3 hslots
    have hs' : s.secret.isNone = false := by
      cases hsec : s.secret
      · exact absurd hsec hs
      · rfl
    have hfst :
        (get_quote_info sha1 comp_hash s use_quote2 use_ver_info).1.isSome =
          true := by
      simp only [get_quote_info, hs']
      rw [if_neg hc, if_neg (by simp),
        if_neg (by simpa [Option.isNone_iff_eq_none] using hv3)]
      rfl
    have hq :
        (get_quote_info sha1 comp_hash s use_quote2 use_ver_info).2 =
          clear_pcrs s := by
      simp only [get_quote_info, hs']
      rw [if_neg hc, if_neg (by simp),
        if_neg (by simpa [Option.isNone_iff_eq_none] using hv3)]
    refine ⟨hfst, fun i => ?_, by rw [hq]; rfl, by rw [hq]; rfl,
      by rw [hq]; rfl⟩
    rw [hq]
    show (clear_upto s.pcr_max 0 s.pcrs).getD i none = none
    rw [clear_upto_getD]
    by_cases h1 : i < s.pcrs.length
    · by_cases h2 : i ≤ s.pcr_max
      · rw [if_pos ⟨h1, by omega⟩]
      · rw [if_neg (by omega : ¬(i < s.pcrs.length ∧ 0 + i ≤ s.pcr_max))]
        exact hslots i h1 (by omega)
    · rw [if_neg (by omega : ¬(i < s.pcrs.length ∧ 0 + i ≤ s.pcr_max))]
      exact getD_of_length_le s.pcrs none i (by omega)

/-- C1 witness: at concrete inputs, a missing-secret failure leaves the
one-populated-slot registry untouched, and a successful extended-format build
clears it. -/
theorem get_quote_info_registry_effect_witness :
    get_quote_info cSha1 none cNoSecret false false = (none, cNoSecret) ∧
    ((get_quote_info cSha1 none cRegistry true true).1.isSome = true ∧
      (get_quote_info cSha1 none cRegistry true true).2.pcr_count = 0) := by
  refine ⟨(get_quote_info_registry_effect cSha1 none cNoSecret false false).1
            (Or.inr (Or.inl rfl)), ?_, ?_⟩
  · exact ((get_quote_info_registry_effect cSha1 none cRegistry true true).2
      (by decide) (by decide) (by decide) (by decide)).1
  · exact ((get_quote_info_registry_effect cSha1 none cRegistry true true).2
      (by decide) (by decide) (by decide) (by decide)).2.2.1

/-- C1 counterexample: with one populated register and no assessment secret,
`get_quote_info` fails and the registry is NOT cleared — the populated count
is still 1 and slot 2 still holds its value — refuting the claim that the
registry is cleared whenever the function returns. -/
theorem get_quote_info_failure_not_cleared_cx :
    (get_quote_info cSha1 none cNoSecret false false).1 = none ∧
    (get_quote_info cSha1 none cNoSecret false false).2.pcr_count = 1 ∧
    (get_quote_info cSha1 none cNoSecret false false).2.pcrs.getD 2 none =
      some cValue := by decide

/-- C2 (amended): under the build preconditions the legacy (non-extended)
Quote Info produced by `get_quote_info` is exactly 48 bytes and equals the
concatenation: the 4-byte version constant 01 01 00 00 (the code writes
`chunk_from_chars(1, 1, 0, 0)`, TPM_STRUCT_VER 1.1.0.0), the 4 ASCII bytes
"QUOT", the 20-byte SHA-1 digest of the Register Composite, and the 20-byte
assessment secret. -/
theorem legacy_quote_info_layout
    (sha1 : List Nat → List Nat) (comp_hash : Option (List Nat → List Nat))
    (s : PtsState) (use_ver_info : Bool) (sec : List Nat)
    (hc : s.pcr_count ≠ 0) (hs : s.secret = some sec) (hsec : sec.length = 20)
    (hsha : (sha1 (pcr_composite s)).length = 20) :
    (get_quote_info sha1 comp_hash s false use_ver_info).1.map Prod.snd =
      some ([1, 1, 0, 0] ++ [81, 85, 79, 84] ++ sha1 (pcr_composite s) ++ sec) ∧
    (∀ q, (get_quote_info sha1 comp_hash s false use_ver_info).1.map Prod.snd =
        some q → q.length = 48) := by
  have hs' : s.secret.isNone = false := by rw [hs]; rfl
  have hmain :
      (get_quote_info sha1 comp_hash s false use_ver_info).1.map Prod.snd =
        some ([1, 1, 0, 0] ++ [81, 85, 79, 84] ++ sha1 (pcr_composite s)
          ++ sec) := by
    simp only [get_quote_info, hs']
    rw [if_neg hc, if_neg (by simp), if_neg (by simp)]
    simp [hs]
  refine ⟨hmain, fun q hq => ?_⟩
  rw [hmain] at hq
  cases hq
  simp [hsha, hsec]

/-- C2 witness: the legacy layout theorem applied at a concrete one-slot
registry with a concrete 20-byte secret and a constant 20-byte digest. -/
theorem legacy_quote_info_layout_witness :
    (get_quote_info cSha1 none cRegistry false false).1.map Prod.snd =
      some ([1, 1, 0, 0] ++ [81, 85, 79, 84] ++ cSha1 (pcr_composite cRegistry)
        ++ cSecret) := by
  exact (legacy_quote_info_layout cSha1 none cRegistry false cSecret
    (by decide) rfl (by decide) (by decide)).1

/-- C2 counterexample: at a concrete state the legacy Quote Info does not
start with version constant 01 00 00 00 (its second byte is 1), and its
total length is 48, not 56 — refuting both the version constant and the
56-byte size in the claim. -/
theorem legacy_quote_info_cx :
    (get_quote_info cSha1 none cRegistry false false).1.map Prod.snd ≠
      some ([1, 0, 0, 0] ++ [81, 85, 79, 84] ++ cSha1 (pcr_composite cRegistry)
        ++ cSecret) ∧
    (get_quote_info cSha1 none cRegistry false false).1.map
        (fun p => p.2.length) = some 48 := by decide

/-- C5 (amended): under the build preconditions the extended Quote Info
produced by `get_quote_info` equals: the 2-byte structure tag 0x0036, the
4 ASCII bytes "QUT2", the assessment secret, the 2-byte selection width,
`selection_width` bytes of the selection bitmap, one locality byte of value 1
(`TPM_LOC_ZERO` is the locality-zero bitmask `1 << 0`, not 0), the SHA-1
digest of the Register Composite, and — exactly when `use_ver_info` is
true — the raw hardware version-info blob appended. -/
theorem quote2_info_layout
    (sha1 : List Nat → List Nat) (comp_hash : Option (List Nat → List Nat))
    (s : PtsState) (use_ver_info : Bool) (sec : List Nat)
    (hc : s.pcr_count ≠ 0) (hs : s.secret = some sec)
    (hv : use_ver_info = true → s.tpm_version_info.isSome = true) :
    (get_quote_info sha1 comp_hash s true use_ver_info).1.map Prod.snd =
      some ([0, 0x36] ++ [81, 85, 84, 50] ++ sec
        ++ writeUInt16 (max (PCR_MAX_NUM / 8) (1 + s.pcr_max / 8))
        ++ (List.range (max (PCR_MAX_NUM / 8) (1 + s.pcr_max / 8))).map
             (fun i => s.pcr_select.getD i 0)
        ++ [1]
        ++ sha1 (pcr_composite s)
        ++ (if use_ver_info then s.tpm_version_info.getD [] else [])) := by
  have hs' : s.secret.isNone = false := by rw [hs]; rfl
  have hv3 : ¬(True ∧ use_ver_info = true ∧
      s.tpm_version_info.isNone = true) := by
    rintro ⟨-, huv, hn⟩
    have hvv := hv huv
    rw [Option.isNone_iff_eq_none] at hn
    rw [hn] at hvv
    exact absurd hvv (by simp)
  simp only [get_quote_info, hs']
  rw [if_neg hc, if_neg (by simp), if_neg hv3]
  simp [hs, TPM_LOC_ZERO, TPM_TAG_QUOTE_INFO2, writeUInt16]

/-- C5 witness: the extended layout theorem applied at a concrete one-slot
registry with secret and version info present and `use_ver_info = true`. -/
theorem quote2_info_layout_witness :
    (get_quote_info cSha1 none cRegistry true true).1.map Prod.snd =
      some ([0, 0x36] ++ [81, 85, 84, 50] ++ cSecret
        ++ writeUInt16 (max (PCR_MAX_NUM / 8) (1 + cRegistry.pcr_max / 8))
        ++ (List.range (max (PCR_MAX_NUM / 8) (1 + cRegistry.pcr_max / 8))).map
             (fun i => cRegistry.pcr_select.getD i 0)
        ++ [1]
        ++ cSha1 (pcr_composite cRegistry)
        ++ (if true then cRegistry.tpm_version_info.getD [] else [])) := by
  exact quote2_info_layout cSha1 none cRegistry true cSecret
    (by decide) rfl (fun _ => by decide)

/-- C5 counterexample: at a concrete state the extended Quote Info with a
locality byte of value 0 — as the claim states it — differs from what the
code produces; the code's locality byte is 1. -/
theorem quote2_info_locality_cx :
    (get_quote_info cSha1 none cRegistry true true).1.map Prod.snd ≠
      some ([0, 0x36] ++ [81, 85, 84, 50] ++ cSecret ++ [0, 3] ++ [4, 0, 0]
        ++ [0] ++ cSha1 (pcr_composite cRegistry) ++ cVerInfo) ∧
    (get_quote_info cSha1 none cRegistry true true).1.map Prod.snd =
      some ([0, 0x36] ++ [81, 85, 84, 50] ++ cSecret ++ [0, 3] ++ [4, 0, 0]
        ++ [1] ++ cSha1 (pcr_composite cRegistry) ++ cVerInfo) := by decide

/-- C3 (amended): derive_secret fails if either nonce is absent or the DH
exchange fails; on success the assessment secret equals
Digest(DH_hash_algorithm, "1" || verifier_nonce || measurer_nonce ||
shared_secret) — the initiator nonce, generated by the verifier role,
precedes the responder nonce, generated by the measurer role — truncated to
at most 20 bytes, and the result is deterministic for fixed nonces and
shared secret. -/
theorem calculate_secret_spec
    (hash : List Nat → List Nat) (dh : Option (List Nat)) (s : PtsState) :
    ((s.initiator_nonce = [] ∨ s.responder_nonce = []) →
      (calculate_secret hash dh s).1 = (false, s)) ∧
    (dh = none → (calculate_secret hash dh s).1 = (false, s)) ∧
    (∀ shared, s.initiator_nonce ≠ [] → s.responder_nonce ≠ [] →
      dh = some shared →
      (calculate_secret hash dh s).1.1 = true ∧
      (calculate_secret hash dh s).1.2.secret =
        some ((hash ([49] ++ verifier_nonce s ++ measurer_nonce s
          ++ shared)).take 20) ∧
      ((calculate_secret hash dh s).1.2.secret.getD []).length ≤ 20) ∧
    (∀ s2 shared, s2.initiator_nonce = s.initiator_nonce →
      s2.responder_nonce = s.responder_nonce → s.initiator_nonce ≠ [] →
      s.responder_nonce ≠ [] →
      (calculate_secret hash (some shared) s).1.2.secret =
        (calculate_secret hash (some shared) s2).1.2.secret) := by
  refine ⟨?_, ?_, ?_, ?_⟩
  · rintro (h | h) <;>
      simp [calculate_secret, h]
  · rintro rfl
    by_cases h1 : s.initiator_nonce.length = 0 <;>
      by_cases h2 : s.responder_nonce.length = 0 <;>
        simp [calculate_secret, h1, h2]
  · rintro shared h1 h2 rfl
    have hcond : ¬(s.initiator_nonce = [] ∨ s.responder_nonce = []) := by
      rintro (h | h)
      · exact h1 h
      · exact h2 h
    refine ⟨?_, ?_, ?_⟩
    · simp [calculate_secret, hcond]
    · simp [calculate_secret, hcond, verifier_nonce, measurer_nonce]
    · simp [calculate_secret, hcond, List.length_take]
  · intro s2 shared he1 he2 h1 h2
    have hcond : ¬(s.initiator_nonce = [] ∨ s.responder_nonce = []) := by
      rintro (h | h)
      · exact h1 h
      · exact h2 h
    have hcond2 : ¬(s2.initiator_nonce = [] ∨ s2.responder_nonce = []) := by
      rw [he1, he2]; exact hcond
    simp [calculate_secret, hcond, hcond2, he1, he2]

/-- C3 witness: at concrete nonces and a concrete shared secret, derivation
succeeds and yields Digest("1" || initiator nonce || responder nonce ||
shared secret) truncated to 20 bytes. -/
theorem calculate_secret_spec_witness :
    (calculate_secret idHash (some [5]) cNonceState).1.1 = true ∧
    (calculate_secret idHash (some [5]) cNonceState).1.2.secret =
      some ((idHash ([49] ++ verifier_nonce cNonceState
        ++ measurer_nonce cNonceState ++ [5])).take 20) := by
  have h := (calculate_secret_spec idHash (some [5]) cNonceState).2.2.1 [5]
    (by decide) (by decide) rfl
  exact ⟨h.1, h.2.1⟩

/-- C3 counterexample: with initiator nonce [2], responder nonce [3], shared
secret [5] and the identity stand-in for the digest, derivation succeeds but
the secret is NOT Digest("1" || measurer_nonce || verifier_nonce || shared):
the code hashes the initiator (verifier-role) nonce before the responder
(measurer-role) nonce, so the claim's nonce order is reversed. -/
theorem calculate_secret_order_cx :
    (calculate_secret idHash (some [5]) cNonceState).1.1 = true ∧
    (calculate_secret idHash (some [5]) cNonceState).1.2.secret ≠
      some ((idHash ([49] ++ measurer_nonce cNonceState
        ++ verifier_nonce cNonceState ++ [5])).take 20) := by decide

/-- C9: on every execution of derive_secret the local raw DH shared-secret
buffer is cleared before return — its timeline ends with `none` on every
path — and on each execution that reaches the shared-secret computation the
timeline is exactly [some shared, none]: the buffer holds the raw secret for
the single interval from `get_shared_secret` through the digest computation
that consumes it, and `chunk_clear` zeroes it at the very next program
point, so the raw secret never persists after derive_secret returns. -/
theorem calculate_secret_zeroizes
    (hash : List Nat → List Nat) (dh : Option (List Nat)) (s : PtsState) :
    ((calculate_secret hash dh s).2).getLast? = some none ∧
    (∀ shared, s.initiator_nonce ≠ [] → s.responder_nonce ≠ [] →
      dh = some shared →
      (calculate_secret hash dh s).2 = [some shared, none]) := by
  constructor
  · by_cases h1 : s.initiator_nonce.length = 0 <;>
      by_cases h2 : s.responder_nonce.length = 0 <;>
        cases dh <;>
          simp [calculate_secret, h1, h2]
  · rintro shared h1 h2 rfl
    have hcond : ¬(s.initiator_nonce = [] ∨ s.responder_nonce = []) := by
      rintro (h | h)
      · exact h1 h
      · exact h2 h
    simp [calculate_secret, hcond]

/-- C9 witness: a concrete successful derivation has buffer timeline
[some [5], none]. -/
theorem calculate_secret_zeroizes_witness :
    (calculate_secret idHash (some [5]) cNonceState).2 =
      [some [5], none] :=
  (calculate_secret_zeroizes idHash (some [5]) cNonceState).2 [5]
    (by decide) (by decide) rfl

/-- C4: for every registry state satisfying the reachable-state invariant
(populated slots are selected, hold values of the register length, and the
highest-touched index is below 24), the encoded Register Composite equals:
a 2-byte big-endian selection width max(3, 1 + highest_touched_index / 8),
that many bytes of the selection bitmap, a 4-byte big-endian length equal to
populated_count × register_length, then the stored values of the selected
registers in ascending index order; in particular, recording values of one
length R at indices 0, 1 and 23 yields the bitmap bytes 3, 0, 128 — bits 0
and 1 of byte 0 and bit 7 of byte 2 set — and a value block of length 3×R. -/
theorem pcr_composite_layout :
    (∀ s : PtsState, s.pcr_max < PCR_MAX_NUM →
      (∀ i v, s.pcrs.getD i none = some v →
        bitSet s i = true ∧ v.length = s.pcr_len) →
      pcr_composite s =
        writeUInt16 (max 3 (1 + s.pcr_max / 8))
          ++ (List.range (max 3 (1 + s.pcr_max / 8))).map
               (fun i => s.pcr_select.getD i 0)
          ++ writeUInt32 (s.pcr_count * s.pcr_len)
          ++ selected_values s) ∧
    (∀ (R : Nat) (v0 v1 v23 : List Nat), v0.length = R → v1.length = R →
      v23.length = R →
      pcr_composite (threeState v0 v1 v23) =
        [0, 3] ++ [3, 0, 128] ++ writeUInt32 (3 * R) ++ (v0 ++ v1 ++ v23) ∧
      (v0 ++ v1 ++ v23).length = 3 * R) := by
  refine ⟨pcr_composite_general, ?_⟩
  intro R v0 v1 v23 h0 h1 h23
  refine ⟨?_,
    by rw [List.length_append, List.length_append, h0, h1, h23]; omega⟩
  cases R with
  | zero =>
      have e0 : v0 = [] := List.eq_nil_of_length_eq_zero h0
      have e1 : v1 = [] := List.eq_nil_of_length_eq_zero h1
      have e23 : v23 = [] := List.eq_nil_of_length_eq_zero h23
      subst e0; subst e1; subst e23
      decide
  | succ n =>
      have t0 : v0.take (n + 1) = v0 := by rw [← h0]; exact List.take_length v0
      have t1 : v1.take (n + 1) = v1 := by rw [← h1]; exact List.take_length v1
      have t23 : v23.take (n + 1) = v23 := by
        rw [← h23]; exact List.take_length v23
      have hr24 : List.range 24 = [0, 1, 2, 3, 4, 5, 6, 7, 8, 9, 10, 11, 12,
        13, 14, 15, 16, 17, 18, 19, 20, 21, 22, 23] := rfl
      have hr3 : List.range 3 = [0, 1, 2] := rfl
      rw [threeState_eq_succ n v0 v1 v23 h0 h1 h23]
      simp [pcr_composite, writeUInt16, PCR_MAX_NUM, hr24, hr3, t0, t1, t23]

/-- C4 witness: the composite layout at a concrete one-slot registry, and the
selection-example registry built by recording 20-byte values at indices 0, 1
and 23. -/
theorem pcr_composite_layout_witness :
    pcr_composite cRegistry =
      writeUInt16 (max 3 (1 + cRegistry.pcr_max / 8))
        ++ (List.range (max 3 (1 + cRegistry.pcr_max / 8))).map
             (fun i => cRegistry.pcr_select.getD i 0)
        ++ writeUInt32 (cRegistry.pcr_count * cRegistry.pcr_len)
        ++ selected_values cRegistry ∧
    pcr_composite (threeState cValue cValue cValue) =
      [0, 3] ++ [3, 0, 128] ++ writeUInt32 (3 * 20)
        ++ (cValue ++ cValue ++ cValue) := by
  constructor
  · refine pcr_composite_layout.1 cRegistry (by decide) ?_
    intro i v h
    have hpcrs : cRegistry.pcrs =
        (List.replicate 24 none).set 2 (some cValue) := by decide
    rw [hpcrs] at h
    by_cases h2 : i = 2
    · subst h2
      rw [getD_set_self _ _ _ _ (by simp)] at h
      injection h with h2
      subst h2
      exact ⟨by decide, by decide⟩
    · rw [getD_set_ne _ _ _ _ _ (fun hh => h2 hh.symm), getD_replicate] at h
      simp at h
  · exact (pcr_composite_layout.2 20 cValue cValue cValue (by decide)
      (by decide) (by decide)).1

/-- C7 (amended): after every sequence of select/record operations from an
empty registry in which each record carries a non-empty value and never
targets a slot that is currently selected but unpopulated, the registry
invariant holds: a selection bit is set iff its slot is populated or was
explicitly selected, the populated/selected count equals the number of set
bits in the bitmap, and every populated slot's value length equals the
register length.  (A record into a merely-selected slot double-increments
the count — see the counterexample.) -/
theorem registry_invariant (ops : List RegOp)
    (hgood : goodOps emptyPts ops = true) :
    (∀ i, i < PCR_MAX_NUM →
      (bitSet (applyOps (emptyPts, ∅) ops).1 i = true ↔
        (((applyOps (emptyPts, ∅) ops).1.pcrs.getD i none).isSome = true ∨
          i ∈ (applyOps (emptyPts, ∅) ops).2))) ∧
    (applyOps (emptyPts, ∅) ops).1.pcr_count =
      popcount (applyOps (emptyPts, ∅) ops).1 ∧
    (∀ i v, (applyOps (emptyPts, ∅) ops).1.pcrs.getD i none = some v →
      v.length = (applyOps (emptyPts, ∅) ops).1.pcr_len) := by
  obtain ⟨-, -, -, h4, h5, h6⟩ :=
    regInv_applyOps ops emptyPts ∅ regInv_empty hgood
  exact ⟨h4, h5, fun i v hv => (h6 i v hv).1⟩

/-- C7 witness: after selecting PCR 2 and recording a value into PCR 3, the
populated/selected count equals the number of set selection bits. -/
theorem registry_invariant_witness :
    (applyOps (emptyPts, ∅)
        [RegOp.select 2, RegOp.record 3 [] [9]]).1.pcr_count =
      popcount (applyOps (emptyPts, ∅)
        [RegOp.select 2, RegOp.record 3 [] [9]]).1 :=
  (registry_invariant [RegOp.select 2, RegOp.record 3 [] [9]] (by decide)).2.1

/-- C7 counterexample: selecting PCR 5 and then recording a value into it
leaves pcr_count at 2 while only one selection bit is set, violating the
claimed invariant that the count equals the number of set bits after every
select/record sequence. -/
theorem registry_invariant_cx :
    (applyOps (emptyPts, ∅)
        [RegOp.select 5, RegOp.record 5 [] [9]]).1.pcr_count = 2 ∧
    popcount (applyOps (emptyPts, ∅)
        [RegOp.select 5, RegOp.record 5 [] [9]]).1 = 1 := by
  constructor
  · decide
  · decide

/-- C6 (amended): record rejects every index ≥ 24 leaving the state
unchanged; a record into a registry whose register length is not yet fixed
sets the register length to len(new_value) and succeeds; and while the fixed
register length is nonzero — i.e. whenever the first recorded value was
non-empty — every later record whose new_value length differs fails and
leaves the entire registry state unchanged.  (A first record of an empty
value leaves the not-yet-fixed sentinel 0 in place, so a later record of any
length still succeeds; see the counterexample.) -/
theorem add_pcr_length_rules
    (s : PtsState) (pcr : Nat) (pcr_before pcr_after : List Nat) :
    (pcr ≥ PCR_MAX_NUM → add_pcr s pcr pcr_before pcr_after = (false, s)) ∧
    (pcr < PCR_MAX_NUM → s.pcr_len = 0 →
      (add_pcr s pcr pcr_before pcr_after).1 = true ∧
      (add_pcr s pcr pcr_before pcr_after).2.pcr_len = pcr_after.length) ∧
    (s.pcr_len ≠ 0 → pcr_after.length ≠ s.pcr_len →
      add_pcr s pcr pcr_before pcr_after = (false, s)) := by
  refine ⟨fun h => by simp [add_pcr, h], fun h hlen => ?_, fun hl hne => ?_⟩
  · have h' : ¬ pcr ≥ PCR_MAX_NUM := Nat.not_le.mpr h
    simp only [add_pcr, if_neg h', hlen]
    split <;> simp_all <;> split <;> rfl
  · by_cases h24 : pcr ≥ PCR_MAX_NUM
    · simp [add_pcr, h24]
    · simp [add_pcr, h24, hl, hne]

/-- C6 witness: index 24 is rejected; a first record at index 3 fixes the
register length to 20; a later record of length 2 into a registry whose
length is fixed at 20 fails with the state unchanged. -/
theorem add_pcr_length_rules_witness :
    add_pcr emptyPts 24 [] cValue = (false, emptyPts) ∧
    ((add_pcr emptyPts 3 [] cValue).1 = true ∧
      (add_pcr emptyPts 3 [] cValue).2.pcr_len = cValue.length) ∧
    add_pcr cNoSecret 4 [] [1, 2] = (false, cNoSecret) :=
  ⟨(add_pcr_length_rules emptyPts 24 [] cValue).1 (by decide),
    (add_pcr_length_rules emptyPts 3 [] cValue).2.1 (by decide) (by decide),
    (add_pcr_length_rules cNoSecret 4 [] [1, 2]).2.2 (by decide) (by decide)⟩

/-- C6 counterexample: a first record of an empty value succeeds and "fixes"
the register length to 0 — but 0 is the unset sentinel, so a later record
with new_value of length 5 at another index also succeeds (and changes the
register length to 5), refuting the claim that every later record whose
new_value length differs from the fixed length fails and leaves the registry
unchanged. -/
theorem add_pcr_empty_first_cx :
    (add_pcr emptyPts 0 [] []).1 = true ∧
    (add_pcr emptyPts 0 [] []).2.pcr_len = 0 ∧
    (add_pcr (add_pcr emptyPts 0 [] []).2 1 [] [7, 7, 7, 7, 7]).1 = true ∧
    (add_pcr (add_pcr emptyPts 0 [] []).2 1 [] [7, 7, 7, 7, 7]).2.pcr_len =
      5 := by decide

/-- C10: path validation succeeds when the path is accessible and also when
its inaccessibility is classified as "not found" (`ENOENT`/`ENOTDIR`) or
"invalid path" (`EFAULT`), delivering the classification through the
error-code out-parameter (zeroed first); it fails only for an unclassified
I/O error, and then the error code stays zero. -/
theorem is_path_valid_classifies :
    (∀ st, (is_path_valid st).1 = false ↔ st = StatOutcome.err_other) ∧
    is_path_valid StatOutcome.success = (true, PtsErrorCode.zero) ∧
    is_path_valid StatOutcome.err_enoent = (true, PtsErrorCode.file_not_found) ∧
    is_path_valid StatOutcome.err_enotdir = (true, PtsErrorCode.file_not_found) ∧
    is_path_valid StatOutcome.err_efault = (true, PtsErrorCode.invalid_path) ∧
    is_path_valid StatOutcome.err_other = (false, PtsErrorCode.zero) := by
  refine ⟨fun st => ?_, rfl, rfl, rfl, rfl, rfl⟩
  cases st <;> simp [is_path_valid]

/-- C8 (code evidence): with no held AIK credential, `verify_quote_signature`
dereferences a NULL pointer (modelled as the `none` outcome) instead of
returning failure; with a credential but no extractable public key it returns
failure, and with an extractable key it returns exactly the PKCS#1 v1.5
RSA / SHA-1 verification verdict for the data and signature. -/
theorem verify_quote_signature_behaviour :
    verify_quote_signature none [0] [0] = none ∧
    (∀ data signature,
        verify_quote_signature (some none) data signature = some false) ∧
    (∀ data signature verify,
        verify_quote_signature (some (some verify)) data signature =
          some (verify data signature)) :=
  ⟨rfl, fun _ _ => rfl, fun _ _ _ => rfl⟩

end PtsSpec
